import Mathlib

namespace X3270

/-- EBCDIC to ASCII (ISO Latin-1) translation table, from tables.c. -/
def ebc2asc0 : List Nat := [
0x20, 0x20, 0x20, 0x20, 0x20, 0x20, 0x20, 0x20,
0x20, 0x20, 0x20, 0x20, 0x20, 0x20, 0x20, 0x20,
0x20, 0x20, 0x20, 0x20, 0x20, 0x20, 0x20, 0x20,
0x20, 0x20, 0x20, 0x20, 0x2a, 0x20, 0x3b, 0x20,
0x20, 0x20, 0x20, 0x20, 0x20, 0x20, 0x20, 0x20,
0x20, 0x20, 0x20, 0x20, 0x20, 0x20, 0x20, 0x20,
0x20, 0x20, 0x20, 0x20, 0x20, 0x20, 0x20, 0x20,
0x20, 0x20, 0x20, 0x20, 0x20, 0x20, 0x20, 0x20,
0x20, 0x20, 0xe2, 0xe4, 0xe0, 0xe1, 0xe3, 0xe5,
0xe7, 0xf1, 0xa2, 0x2e, 0x3c, 0x28, 0x2b, 0x7c,
0x26, 0xe9, 0xea, 0xeb, 0xe8, 0xed, 0xee, 0xef,
0xec, 0xdf, 0x21, 0x24, 0x2a, 0x29, 0x3b, 0xac,
0x2d, 0x2f, 0xc2, 0xc4, 0xc0, 0xc1, 0xc3, 0xc5,
0xc7, 0xd1, 0xa6, 0x2c, 0x25, 0x5f, 0x3e, 0x3f,
0xf8, 0xc9, 0xca, 0xcb, 0xc8, 0xcd, 0xce, 0xcf,
0xcc, 0x60, 0x3a, 0x23, 0x40, 0x27, 0x3d, 0x22,
0xd8, 0x61, 0x62, 0x63, 0x64, 0x65, 0x66, 0x67,
0x68, 0x69, 0xab, 0xbb, 0xf0, 0xfd, 0xfe, 0xb1,
0xb0, 0x6a, 0x6b, 0x6c, 0x6d, 0x6e, 0x6f, 0x70,
0x71, 0x72, 0xaa, 0xba, 0xe6, 0xb8, 0xc6, 0xa4,
0xb5, 0x7e, 0x73, 0x74, 0x75, 0x76, 0x77, 0x78,
0x79, 0x7a, 0xa1, 0xbf, 0xd0, 0xdd, 0xde, 0xae,
0x5e, 0xa3, 0xa5, 0xb7, 0xa9, 0xa7, 0xb6, 0xbc,
0xbd, 0xbe, 0x5b, 0x5d, 0xaf, 0xa8, 0xb4, 0xd7,
0x7b, 0x41, 0x42, 0x43, 0x44, 0x45, 0x46, 0x47,
0x48, 0x49, 0xad, 0xf4, 0xf6, 0xf2, 0xf3, 0xf5,
0x7d, 0x4a, 0x4b, 0x4c, 0x4d, 0x4e, 0x4f, 0x50,
0x51, 0x52, 0xb9, 0xfb, 0xfc, 0xf9, 0xfa, 0xff,
0x5c, 0xf7, 0x53, 0x54, 0x55, 0x56, 0x57, 0x58,
0x59, 0x5a, 0xb2, 0xd4, 0xd6, 0xd2, 0xd3, 0xd5,
0x30, 0x31, 0x32, 0x33, 0x34, 0x35, 0x36, 0x37,
0x38, 0x39, 0xb3, 0xdb, 0xdc, 0xd9, 0xda, 0x20
]

/-- ASCII (ISO Latin-1) to EBCDIC translation table, from tables.c. -/
def asc2ebc0 : List Nat := [
0x00, 0x00, 0x00, 0x00, 0x00, 0x00, 0x00, 0x00,
0x00, 0x00, 0x00, 0x00, 0x00, 0x00, 0x00, 0x00,
0x00, 0x00, 0x00, 0x00, 0x00, 0x00, 0x00, 0x00,
0x00, 0x00, 0x00, 0x00, 0x00, 0x00, 0x00, 0x00,
0x40, 0x5a, 0x7f, 0x7b, 0x5b, 0x6c, 0x50, 0x7d,
0x4d, 0x5d, 0x5c, 0x4e, 0x6b, 0x60, 0x4b, 0x61,
0xf0, 0xf1, 0xf2, 0xf3, 0xf4, 0xf5, 0xf6, 0xf7,
0xf8, 0xf9, 0x7a, 0x5e, 0x4c, 0x7e, 0x6e, 0x6f,
0x7c, 0xc1, 0xc2, 0xc3, 0xc4, 0xc5, 0xc6, 0xc7,
0xc8, 0xc9, 0xd1, 0xd2, 0xd3, 0xd4, 0xd5, 0xd6,
0xd7, 0xd8, 0xd9, 0xe2, 0xe3, 0xe4, 0xe5, 0xe6,
0xe7, 0xe8, 0xe9, 0xba, 0xe0, 0xbb, 0xb0, 0x6d,
0x79, 0x81, 0x82, 0x83, 0x84, 0x85, 0x86, 0x87,
0x88, 0x89, 0x91, 0x92, 0x93, 0x94, 0x95, 0x96,
0x97, 0x98, 0x99, 0xa2, 0xa3, 0xa4, 0xa5, 0xa6,
0xa7, 0xa8, 0xa9, 0xc0, 0x4f, 0xd0, 0xa1, 0x00,
0x00, 0x00, 0x00, 0x00, 0x00, 0x00, 0x00, 0x00,
0x00, 0x00, 0x00, 0x00, 0x00, 0x00, 0x00, 0x00,
0x00, 0x00, 0x00, 0x00, 0x00, 0x00, 0x00, 0x00,
0x00, 0x00, 0x00, 0x00, 0x00, 0x00, 0x00, 0x00,
0x41, 0xaa, 0x4a, 0xb1, 0x9f, 0xb2, 0x6a, 0xb5,
0xbd, 0xb4, 0x9a, 0x8a, 0x5f, 0xca, 0xaf, 0xbc,
0x90, 0x8f, 0xea, 0xfa, 0xbe, 0xa0, 0xb6, 0xb3,
0x9d, 0xda, 0x9b, 0x8b, 0xb7, 0xb8, 0xb9, 0xab,
0x64, 0x65, 0x62, 0x66, 0x63, 0x67, 0x9e, 0x68,
0x74, 0x71, 0x72, 0x73, 0x78, 0x75, 0x76, 0x77,
0xac, 0x69, 0xed, 0xee, 0xeb, 0xef, 0xec, 0xbf,
0x80, 0xfd, 0xfe, 0xfb, 0xfc, 0xad, 0xae, 0x59,
0x44, 0x45, 0x42, 0x46, 0x43, 0x47, 0x9c, 0x48,
0x54, 0x51, 0x52, 0x53, 0x58, 0x55, 0x56, 0x57,
0x8c, 0x49, 0xcd, 0xce, 0xcb, 0xcf, 0xcc, 0xe1,
0x70, 0xdd, 0xde, 0xdb, 0xdc, 0x8d, 0x8e, 0xdf
]

/-- Executable form of the round-trip property: for each byte, either the round trip
through the two tables holds, or some distinct byte has the same ebc2asc0 image. -/
def roundTripCheck : Bool :=
  (List.range 256).all fun b =>
    (asc2ebc0.getD (ebc2asc0.getD b 0) 0 == b) ||
    ((List.range 256).any fun bp => (bp != b) && (ebc2asc0.getD bp 0 == ebc2asc0.getD b 0))

/-! ### Version parsing: parse_version and check_min_version from b3270.c.
A C string is modelled as a `List Char` with no interior NUL; a C char pointer into
it is modelled as a position (index), and reading at or past the end yields NUL. -/

def NULc : Char := Char.ofNat 0

/-- C locale isspace. -/
def isSpaceC (c : Char) : Bool :=
  c == ' ' || c == '\t' || c == '\n' || c == '\x0b' || c == '\x0c' || c == '\r'

def ULONG_MAX : Nat := 2 ^ 64 - 1

/-- Value of a run of decimal digits. -/
def digitsVal (l : List Char) : Nat :=
  l.foldl (fun acc c => acc * 10 + (c.toNat - '0'.toNat)) 0

/-- Character at a position of a C string; NUL at or past the terminator. -/
def charAt (s : List Char) (i : Nat) : Char := s.getD i NULc

/-- Modelled from the C library: strtoul(s + pos, &end, 10), where end is returned as
a position. Skips leading whitespace, accepts one optional sign, then a run of decimal
digits; the value is clamped to ULONG_MAX and negated modulo 2^64 for a minus sign.
When no digit follows the prefix, no conversion is performed: the value is 0 and the
returned position is pos itself. -/
def strtoul10 (s : List Char) (pos : Nat) : Nat × Nat :=
  let rest := s.drop pos
  let sp := (rest.takeWhile isSpaceC).length
  let afterSp := rest.drop sp
  let sgn : Nat := if afterSp.headD NULc == '+' || afterSp.headD NULc == '-' then 1 else 0
  let digits := (afterSp.drop sgn).takeWhile Char.isDigit
  if digits.isEmpty then
    (0, pos)
  else
    let v := digitsVal digits
    let v' :=
      if v > ULONG_MAX then ULONG_MAX
      else if afterSp.headD NULc == '-' then (2 ^ 64 - v) % 2 ^ 64
      else v
    (v', pos + sp + sgn + digits.length)

def MAX_VERSION : Nat := 999

/-- Position after skipping the run of non-digit characters starting at pos
(the `while (!isdigit(*t) && *t != '\0') t++;` loop of parse_version). -/
def skipNonDigits (s : List Char) (pos : Nat) : Nat :=
  pos + ((s.drop pos).takeWhile (fun c => !c.isDigit)).length

/-- parse_version from b3270.c; each strtoul result is a (value, end-position) pair.
Returns none where the C function returns false. -/
def parse_version (s : List Char) : Option (Nat × Nat × Nat) :=
  let r1 := strtoul10 s 0
  let n := r1.1
  let p1 := r1.2
  if p1 == 0 || (charAt s p1 != '.' && charAt s p1 != NULc) || n > MAX_VERSION then
    none
  else
    let major := n
    if charAt s p1 == NULc then
      some (major, 0, 0)
    else
      let t := p1 + 1
      let r2 := strtoul10 s t
      let n2 := r2.1
      let p2 := r2.2
      if p2 == 0 || n2 > MAX_VERSION then
        none
      else
        let minor := n2
        if charAt s p2 == NULc then
          some (major, minor, 0)
        else
          let t2 := skipNonDigits s p2
          if charAt s t2 == NULc then
            none
          else
            let r3 := strtoul10 s t2
            let n3 := r3.1
            let p3 := r3.2
            if p3 == t2 || charAt s p3 != NULc || n3 > MAX_VERSION then
              none
            else
              some (major, minor, n3)

/-- The comparison performed by check_min_version in b3270.c after both versions have
been parsed: the process survives (does not exit) exactly when this returns true. -/
def check_min_version_ok (ourMajor ourMinor ourIteration minMajor minMinor
    minIteration : Nat) : Bool :=
  if ourMajor < minMajor ∨ ourMinor < minMinor ∨ ourIteration < minIteration then
    false
  else
    true

/-- Clamp of a converted value to the unsigned long range, as strtoul does. -/
def clampU (v : Nat) : Nat := if v > ULONG_MAX then ULONG_MAX else v

/-- A C string with no whitespace, sign, or NUL characters; on such strings the
strtoul prefix handling is inert. -/
def cleanStr (s : List Char) : Prop :=
  ∀ c ∈ s, isSpaceC c = false ∧ c ≠ '+' ∧ c ≠ '-' ∧ c ≠ NULc

/-- Refinement comparison definition for C5, following the spec grammar of section 4.4
with the amendment that the minor digit run may be empty (parsing as 0):
digits [ "." digits* [ non-digit-run digits ] ], every numeric component at most 999. -/
def versionGrammar (s : List Char) : Option (Nat × Nat × Nat) :=
  let maj := s.takeWhile Char.isDigit
  let rest := s.drop maj.length
  if maj.isEmpty || digitsVal maj > MAX_VERSION then
    none
  else
    match rest with
    | [] => some (digitsVal maj, 0, 0)
    | c :: r2 =>
      if c != '.' then
        none
      else
        let minr := r2.takeWhile Char.isDigit
        let r3 := r2.drop minr.length
        if digitsVal minr > MAX_VERSION then
          none
        else if r3.isEmpty then
          some (digitsVal maj, digitsVal minr, 0)
        else
          let r4 := r3.dropWhile (fun c => !c.isDigit)
          let iter := r4.takeWhile Char.isDigit
          let r5 := r4.drop iter.length
          if iter.isEmpty || !r5.isEmpty || digitsVal iter > MAX_VERSION then
            none
          else
            some (digitsVal maj, digitsVal minr, digitsVal iter)

/-! ### Connection and stats tracking: stats_poll and b3270_connect from b3270.c. -/

/-- The engine connection states, in the order of the cstate_name table in b3270.c. -/
inductive Cstate where
  | NOT_CONNECTED
  | SSL_PASS_PENDING
  | RESOLVING
  | PENDING
  | NEGOTIATING
  | CONNECTED_INITIAL
  | CONNECTED_NVT
  | CONNECTED_NVT_CHAR
  | CONNECTED_3270
  | CONNECTED_UNBOUND
  | CONNECTED_E_NVT
  | CONNECTED_SSCP
  | CONNECTED_TN3270E
  deriving DecidableEq

/-- A snapshot of the four telnet counters (ns_brcvd, ns_rrcvd, ns_bsent, ns_rsent). -/
structure Counters where
  brcvd : Nat
  rrcvd : Nat
  bsent : Nat
  rsent : Nat
  deriving DecidableEq

/-- The module-static state of b3270.c stats and connection tracking: the
last-reported counters (brcvd/rrcvd/bsent/rsent), whether the stats timer is armed
(stats_ioid != NULL_IOID), and the previously observed state (old_cstate). -/
structure TrackState where
  last : Counters
  ioidArmed : Bool
  old_cstate : Cstate
  deriving DecidableEq

/-- An event emitted by the stats and connection tracking code. -/
inductive Ev where
  | stats (c : Counters)
  | connection (st : Cstate) (host : Option String)
  deriving DecidableEq

/-- dump_stats from b3270.c: emit a stats event carrying the four last-reported
counters. -/
def dump_stats (last : Counters) : Ev := .stats last

/-- stats_poll from b3270.c: on a timer tick, compare the current ns counters with
the last-reported values; if any differs, record and dump them; then re-arm the
timer. Returns the new state and the emitted events. -/
def stats_poll (ns : Counters) (st : TrackState) : TrackState × List Ev :=
  if st.last ≠ ns then
    ({ st with last := ns, ioidArmed := true }, [dump_stats ns])
  else
    ({ st with ioidArmed := true }, [])

/-- b3270_connect from b3270.c: respond to a change in the connection state.
The current cstate, ns counters and current_host are engine inputs. An unchanged
state is suppressed; on transition to NOT_CONNECTED with the timer armed, the timer
is cancelled and changed counters are flushed; the new state is announced (with the
host unless disconnected); on transition with the timer unarmed to a connected
state, the counters are zeroed, dumped unconditionally, and the timer is armed.
(The screen-erase side effect on leaving NOT_CONNECTED is outside this model.) -/
def b3270_connect (cstate : Cstate) (ns : Counters) (current_host : String)
    (st : TrackState) : TrackState × List Ev :=
  if cstate = st.old_cstate then
    (st, [])
  else
    let s1 :=
      if cstate = .NOT_CONNECTED ∧ st.ioidArmed then
        let stOff := { st with ioidArmed := false }
        if stOff.last ≠ ns then
          ({ stOff with last := ns }, [dump_stats ns])
        else
          (stOff, ([] : List Ev))
      else
        (st, ([] : List Ev))
    let evs2 :=
      if cstate = .NOT_CONNECTED then
        [Ev.connection cstate none]
      else
        [Ev.connection cstate (some current_host)]
    let s3 :=
      if cstate ≠ .NOT_CONNECTED ∧ s1.1.ioidArmed = false then
        ({ s1.1 with last := ⟨0, 0, 0, 0⟩, ioidArmed := true },
         [dump_stats ⟨0, 0, 0, 0⟩])
      else
        (s1.1, ([] : List Ev))
    ({ s3.1 with old_cstate := cstate }, s1.2 ++ evs2 ++ s3.2)

/-- One input to the tracking layer: a stats timer tick, or an engine state-change
notification carrying the current state, counters and host. -/
inductive TrackIn where
  | tick (ns : Counters)
  | notify (cstate : Cstate) (ns : Counters) (host : String)
  deriving DecidableEq

/-- Process one tracking input. -/
def trackStep (st : TrackState) : TrackIn → TrackState × List Ev
  | .tick ns => stats_poll ns st
  | .notify cs ns host => b3270_connect cs ns host st

/-- Process a sequence of tracking inputs, concatenating the emitted events. -/
def trackRun (st : TrackState) : List TrackIn → TrackState × List Ev
  | [] => (st, [])
  | i :: is =>
    let s1 := trackStep st i
    let s2 := trackRun s1.1 is
    (s2.1, s1.2 ++ s2.2)

/-- Count of connection events in an event list. -/
def countConn (evs : List Ev) : Nat :=
  evs.countP fun e =>
    match e with
    | .connection _ _ => true
    | _ => false

/-- Count of stats events in an event list. -/
def countStats (evs : List Ev) : Nat :=
  evs.countP fun e =>
    match e with
    | .stats _ => true
    | _ => false

/-- Number of notifications in a sequence whose state differs from the previously
observed one (ticks do not alter the observed state). -/
def countChanges (old : Cstate) : List TrackIn → Nat
  | [] => 0
  | .tick _ :: is => countChanges old is
  | .notify cs _ _ :: is => (if cs ≠ old then 1 else 0) + countChanges cs is

/-! ### Toggle-change handling: b3270_toggle from b3270.c. -/

/-- An entry of the toggle display-name table (toggle_names is declared in
toggles.c, which is not among the sources; modelled from the spec: named toggle
registry entries carrying an index and a display name). -/
structure ToggleName where
  name : String
  index : Nat
  deriving DecidableEq

/-- Modelled from the spec: the ambient toggle state read by the toggle-change
handler: the display-name table, each toggle's current boolean value, the index of
the tracing toggle, and the active trace file name, when any. -/
structure ToggleEnv where
  toggle_names : List ToggleName
  toggled : Nat → Bool
  TRACING : Nat
  tracefile_name : Option String

/-- Modelled from the spec: ui_vleaf serializes a tag with an ordered attribute
list, omitting attributes whose value is absent. -/
def ui_vleaf (tag : String) (attrs : List (String × Option String)) :
    String × List (String × String) :=
  (tag, attrs.filterMap fun kv => kv.2.map fun v => (kv.1, v))

/-- b3270_toggle from b3270.c: look the toggle index up in the display-name table;
if absent, do nothing; otherwise emit one toggle event whose file attribute is the
trace file name exactly when the index is the tracing toggle, the toggle is on, and
a trace file name is set. The handler mutates nothing. -/
def b3270_toggle (env : ToggleEnv) (ix : Nat) :
    List (String × List (String × String)) :=
  match env.toggle_names.find? (fun tn => tn.index == ix) with
  | none => []
  | some tn =>
      [ui_vleaf "toggle"
        [("name", some tn.name),
         ("value", some (if env.toggled ix then "true" else "false")),
         ("file",
          if ix == env.TRACING && env.toggled ix && env.tracefile_name.isSome then
            env.tracefile_name
          else
            none)]]

/-! ### The Model action from b3270.c. -/

/-- The emulator configuration the Model action reads and may change: model number,
color mode (m3279), oversize rows/columns, current geometry, and maximum geometry. -/
structure EmuState where
  model_num : Nat
  m3279 : Bool
  ov_rows : Nat
  ov_cols : Nat
  ROWS : Nat
  COLS : Nat
  maxROWS : Nat
  maxCOLS : Nat
  deriving DecidableEq

/-- Modelled from the spec: the maximum geometry of each 3270 model number
(set_rows_cols lives in ctlr.c, which is not among the sources). -/
def model_dims (n : Nat) : Nat × Nat :=
  if n = 2 then (24, 80)
  else if n = 3 then (32, 80)
  else if n = 4 then (43, 80)
  else (27, 132)

/-- Modelled from the spec: set_rows_cols records the model number and oversize and
resets the maximum buffer geometry to the new maximum (the oversize when one is
given, the model size otherwise). -/
def set_rows_cols (model_number ovc ovr : Nat) (st : EmuState) : EmuState :=
  let d := model_dims model_number
  let mr := if ovr ≠ 0 ∨ ovc ≠ 0 then ovr else d.1
  let mc := if ovr ≠ 0 ∨ ovc ≠ 0 then ovc else d.2
  { st with model_num := model_number, ov_rows := ovr, ov_cols := ovc,
            maxROWS := mr, maxCOLS := mc }

/-- The model descriptor reported by Model with no arguments: 327[89]-n, with the
oversize appended when one is set. -/
def modelStr (st : EmuState) : String :=
  let base := "327" ++ (if st.m3279 then "9" else "8") ++ "-" ++ toString st.model_num
  if st.ov_rows ≠ 0 ∨ st.ov_cols ≠ 0 then
    base ++ "," ++ toString st.ov_rows ++ "x" ++ toString st.ov_cols
  else
    base

/-- The first-parameter check of Model_action: a six-character string 327[89]-[2345];
returns the color character and the model-number digit. -/
def validModelStr (m : List Char) : Option (Char × Char) :=
  match m with
  | [c1, c2, c3, c4, c5, c6] =>
    if c1 = '3' ∧ c2 = '2' ∧ c3 = '7' ∧ (c4 = '8' ∨ c4 = '9') ∧ c5 = '-' ∧
        (c6 = '2' ∨ c6 = '3' ∨ c6 = '4' ∨ c6 = '5') then
      some (c4, c6)
    else
      none
  | _ => none

/-- Modelled from the spec: the oversize grammar <rows>x<cols> checked by the
sscanf call of Model_action. -/
def parseOversize (a : List Char) : Option (Nat × Nat) :=
  let d1 := a.takeWhile Char.isDigit
  let r1 := a.drop d1.length
  match r1 with
  | 'x' :: r2 =>
    let d2 := r2.takeWhile Char.isDigit
    if d1.isEmpty ∨ d2.isEmpty ∨ (r2.drop d2.length).isEmpty = false then
      none
    else
      some (digitsVal d1, digitsVal d2)
  | _ => none

/-- Model_action from b3270.c. `connected` is the engine's PCONNECTED condition.
Returns the success flag, the resulting state, and the action output lines; argument
count errors, the connected-state error and grammar errors fail with the state
untouched. -/
def Model_action (connected : Bool) (args : List (List Char)) (st : EmuState) :
    Bool × EmuState × List String :=
  if args.length > 2 then
    (false, st, [])
  else
    match args with
    | [] => (true, st, [modelStr st])
    | a0 :: restArgs =>
      if connected then
        (false, st, [])
      else
        match validModelStr a0 with
        | none => (false, st, [])
        | some cd =>
          let ovp :=
            match restArgs with
            | [] => some (0, 0)
            | a1 :: _ => parseOversize a1
          match ovp with
          | none => (false, st, [])
          | some ov =>
            let model_number := cd.2.toNat - '0'.toNat
            let st1 := set_rows_cols model_number ov.2 ov.1 st
            let st2 := { st1 with ROWS := st1.maxROWS, COLS := st1.maxCOLS,
                                  m3279 := cd.1 = '9' }
            ((st2.model_num == model_number) && (st2.ov_rows == ov.1) &&
              (st2.ov_cols == ov.2), st2, [])

/-! ### The ClearRegion action and its screen-buffer model. -/

/-- DBCS role of a buffer cell, per the spec data model (ctlr_dbcs_state lives in
ctlr.c, which is not among the sources): none, single-byte, double-left,
double-right. -/
inductive Dbcs where
  | none
  | sb
  | left
  | right
  deriving DecidableEq

/-- A screen-buffer cell: character code, display class (cs), field-attribute flag,
the protection bit of a field-attribute cell, DBCS role, and a modified mark. -/
structure Cell where
  cc : Nat
  cs : Nat
  fa : Bool
  prot : Bool
  db : Dbcs
  dirty : Bool
  deriving DecidableEq

/-- The screen buffer as a total map over linear addresses (ROWCOL_TO_BA indices);
only addresses 0 .. ROWS*COLS-1 are meaningful. -/
def Buf : Type := Int → Cell

/-- EBCDIC codes used by ClearRegion (declared in 3270ds.h, not among the sources):
space, shift-out, shift-in. -/
def EBC_space : Nat := 0x40

def EBC_so : Nat := 0x0e

def EBC_si : Nat := 0x0f

/-- Modelled from the spec: INC_BA, the wrap-aware successor of a buffer address
(index arithmetic wraps within the buffer, never out of bounds). -/
def INC_BA (N : Nat) (q : Int) : Int := (q + 1).emod N

/-- Modelled from the spec: DEC_BA, the wrap-aware predecessor of a buffer address. -/
def DEC_BA (N : Nat) (q : Int) : Int := (q - 1).emod N

/-- Modelled from the spec: the protection of the field containing a cell
(FA_IS_PROTECTED of get_field_attribute): scan backward with wraparound for the
nearest field-attribute cell, the cell itself included; no field means unprotected. -/
def protAt (N : Nat) (buf : Buf) (q : Int) : Bool :=
  match (List.range N).find? (fun k : Nat => (buf ((q - (k : Int)).emod N)).fa) with
  | some k => (buf ((q - (k : Int)).emod N)).prot
  | none => false

/-- The skip test of the ClearRegion loop: field-attribute cells, protected cells,
and SO/SI control cells are left alone. -/
def skipCell (N : Nat) (buf : Buf) (q : Int) : Bool :=
  (buf q).fa || protAt N buf q || ((buf q).cc == EBC_so) || ((buf q).cc == EBC_si)

/-- Modelled from the spec: ctlr_add(baddr, c, cs) replaces the character and the
display class of the addressed cell and marks it modified for redraw. -/
def ctlr_add (buf : Buf) (q : Int) (c cs : Nat) : Buf :=
  fun x => if x = q then { buf q with cc := c, cs := cs, dirty := true } else buf x

/-- Modelled from the spec: mdt_set marks the addressed cell modified for
transmission. -/
def mdt_set (buf : Buf) (q : Int) : Buf :=
  fun x => if x = q then { buf q with dirty := true } else buf x

/-- Body of the ClearRegion loop at one rectangle address, from b3270.c: skip
attribute/protected/SO/SI cells; clear the cell, and for a double-byte half also
its partner, in the cell's current display class; mark the cell modified. -/
def clearStep (N : Nat) (buf : Buf) (baddr : Int) : Buf :=
  if skipCell N buf baddr then
    buf
  else
    let buf1 :=
      match (buf baddr).db with
      | .none => ctlr_add buf baddr EBC_space (buf baddr).cs
      | .sb => ctlr_add buf baddr EBC_space (buf baddr).cs
      | .left =>
        let b1 := ctlr_add buf baddr EBC_space (buf baddr).cs
        ctlr_add b1 (INC_BA N baddr) EBC_space (b1 baddr).cs
      | .right =>
        let b1 := ctlr_add buf (DEC_BA N baddr) EBC_space (buf baddr).cs
        ctlr_add b1 baddr EBC_space (b1 baddr).cs
    mdt_set buf1 baddr

/-- The rectangle addresses visited by the ClearRegion loop, in loop order
(ROWCOL_TO_BA(r, c) = r * COLS + c). -/
def rectAddrs (COLS row column rows columns : Int) : List Int :=
  (List.range rows.toNat).flatMap fun i : Nat =>
    (List.range columns.toNat).map fun j : Nat =>
      (row - 1 + (i : Int)) * COLS + (column - 1 + (j : Int))

/-- ClearRegion_action from b3270.c, after atoi of the four arguments: returns the
action result, the popup error messages, and the resulting buffer. The source
reports coordinate and size errors but does not return, so execution falls
through. -/
def ClearRegion_action (ROWS COLS : Int) (buf : Buf) (row column rows columns : Int) :
    Bool × List String × Buf :=
  let errs1 : List String :=
    if row ≤ 0 ∨ row > ROWS ∨ column ≤ 0 ∨ column > COLS then
      ["ClearRegion: invalid coordinates"]
    else []
  let errs2 : List String :=
    errs1 ++
      (if rows < 0 ∨ columns < 0 ∨ row - 1 + rows > ROWS ∨ column - 1 + columns > COLS then
        ["ClearRegion: invalid size"]
      else [])
  if rows = 0 ∨ columns = 0 then
    (true, errs2, buf)
  else
    (true, errs2,
     (rectAddrs COLS row column rows columns).foldl (clearStep (ROWS * COLS).toNat) buf)

/-- A cell after clearing: a space in its current display class, marked modified. -/
def clearedCell (c : Cell) : Cell := { c with cc := EBC_space, dirty := true }

/-- Well-formedness of a buffer over its N meaningful addresses, per the spec
invariants: the two halves of a double-byte pair are adjacent left/right, share
their display class and their field's protection, and field-attribute and SO/SI
cells carry no DBCS role. -/
def WF (N : Nat) (buf : Buf) : Prop :=
  ∀ k : Nat, k < N →
    ((buf (k : Int)).db = .left →
      (buf (INC_BA N k)).db = .right ∧ (buf (INC_BA N k)).cs = (buf (k : Int)).cs ∧
      protAt N buf (INC_BA N k) = protAt N buf (k : Int)) ∧
    ((buf (k : Int)).db = .right →
      (buf (DEC_BA N k)).db = .left ∧ (buf (DEC_BA N k)).cs = (buf (k : Int)).cs ∧
      protAt N buf (DEC_BA N k) = protAt N buf (k : Int)) ∧
    ((buf (k : Int)).fa = true → (buf (k : Int)).db = .none) ∧
    ((buf (k : Int)).cc = EBC_so ∨ (buf (k : Int)).cc = EBC_si → (buf (k : Int)).db = .none)

/-- Intermediate buffers of the ClearRegion loop, relative to the original: every
cell is untouched or cleared, and only cells the original buffer does not skip are
ever touched. -/
def Evolved (N : Nat) (buf0 buf : Buf) : Prop :=
  ∀ x : Int, buf x = buf0 x ∨ (skipCell N buf0 x = false ∧ buf x = clearedCell (buf0 x))

/-- A small example buffer on a 2x3 screen: a double-byte pair at addresses 1
(left half) and 2 (right half), ordinary cells elsewhere, nothing protected. -/
def wbuf : Buf := fun q =>
  if q = 1 then ⟨0xC1, 5, false, false, .left, false⟩
  else if q = 2 then ⟨0xC2, 5, false, false, .right, false⟩
  else ⟨0x40, 0, false, false, .none, false⟩

/-! ## Theorems -/

set_option maxRecDepth 10000 in
theorem roundTripCheck_true : roundTripCheck = true := by rfl

/-- Claim C8: for every byte b at which ebc2asc0 is injective (no other byte has the
same image), the round trip through asc2ebc0 returns b. -/
theorem ebc2asc0_round_trip :
    ∀ b < 256, (∀ bp < 256, ebc2asc0.getD bp 0 = ebc2asc0.getD b 0 → bp = b) →
    asc2ebc0.getD (ebc2asc0.getD b 0) 0 = b := by
  intro b hb hinj
  have h0 : ((List.range 256).all fun b =>
      (asc2ebc0.getD (ebc2asc0.getD b 0) 0 == b) ||
      ((List.range 256).any fun bp =>
        (bp != b) && (ebc2asc0.getD bp 0 == ebc2asc0.getD b 0))) = true :=
    roundTripCheck_true
  have h1 := List.all_eq_true.mp h0 b (List.mem_range.mpr hb)
  rw [Bool.or_eq_true] at h1
  rcases h1 with h2 | h2
  · exact beq_iff_eq.mp h2
  · rcases List.any_eq_true.mp h2 with ⟨bp, hmem, hbp⟩
    rw [Bool.and_eq_true] at hbp
    rcases hbp with ⟨hne, heq⟩
    have : bp = b := hinj bp (List.mem_range.mp hmem) (beq_iff_eq.mp heq)
    simp [this] at hne

set_option maxRecDepth 10000 in
/-- Witness for C8: byte 0xC1 has a unique image (0x41) and round-trips. -/
theorem ebc2asc0_round_trip_witness :
    0xC1 < 256 ∧ asc2ebc0.getD (ebc2asc0.getD 0xC1 0) 0 = 0xC1 := by
  refine ⟨by decide, ebc2asc0_round_trip 0xC1 (by decide) ?_⟩
  decide

/-- Character at a position equals the head of the dropped suffix. -/
theorem charAt_drop (s : List Char) (i : Nat) : charAt s i = (s.drop i).headD NULc := by
  induction s generalizing i with
  | nil => cases i <;> rfl
  | cons a t ih =>
    cases i with
    | zero => rfl
    | succ m => exact ih m

theorem ULONG_MAX_eq : ULONG_MAX = 18446744073709551615 := by norm_num [ULONG_MAX]

theorem clampU_gt (v : Nat) : MAX_VERSION < clampU v ↔ MAX_VERSION < v := by
  have h := ULONG_MAX_eq
  unfold clampU MAX_VERSION
  split <;> omega

theorem clampU_le (v : Nat) (hv : ¬ MAX_VERSION < v) : clampU v = v := by
  have h := ULONG_MAX_eq
  unfold clampU
  unfold MAX_VERSION at hv
  split <;> omega

/-- On a clean string, strtoul10 converts exactly the leading digit run. -/
theorem strtoul10_clean (s : List Char) (h : cleanStr s) (pos : Nat) :
    strtoul10 s pos =
      (clampU (digitsVal ((s.drop pos).takeWhile Char.isDigit)),
       pos + ((s.drop pos).takeWhile Char.isDigit).length) := by
  cases hd : s.drop pos with
  | nil =>
    simp [strtoul10, hd, digitsVal, clampU]
  | cons c t =>
    have hcs : c ∈ s := List.drop_subset _ _ (by rw [hd]; exact List.mem_cons_self c t)
    have hc := h c hcs
    have hplus : (c == '+') = false := beq_eq_false_iff_ne.mpr hc.2.1
    have hminus : (c == '-') = false := beq_eq_false_iff_ne.mpr hc.2.2.1
    have htsp : (c :: t).takeWhile isSpaceC = [] := by
      simp [List.takeWhile_cons, hc.1]
    rw [strtoul10]
    simp only [hd, htsp, List.length_nil, List.drop_zero, List.headD_cons,
      hplus, hminus, Bool.or_self, Bool.or_false, Bool.false_eq_true, if_false,
      Nat.add_zero]
    cases htw : (c :: t).takeWhile Char.isDigit with
    | nil => simp [htw, digitsVal, clampU, ULONG_MAX]
    | cons d ds => simp [htw, clampU]

/-- Dropping the length of the matching prefix is the same as dropWhile. -/
theorem drop_length_takeWhile (p : Char → Bool) (l : List Char) :
    l.drop (l.takeWhile p).length = l.dropWhile p := by
  induction l with
  | nil => rfl
  | cons a t ih =>
    rw [List.takeWhile_cons, List.dropWhile_cons]
    by_cases hp : p a = true
    · rw [if_pos hp, if_pos hp]
      simpa using ih
    · rw [if_neg hp, if_neg hp]
      rfl

/-- Heads surviving a dropWhile falsify the predicate. -/
theorem dropWhile_head_false (p : Char → Bool) (l : List Char) (c : Char) (t : List Char)
    (hd : l.dropWhile p = c :: t) : p c = false := by
  induction l with
  | nil => cases hd
  | cons a l ih =>
    rw [List.dropWhile_cons] at hd
    split at hd
    · exact ih hd
    · next hpa =>
      cases hd
      simpa using hpa

/-- The iteration-segment part of parse_version agrees with the grammar tail. -/
theorem parse_iteration_eq (s : List Char) (h : cleanStr s) (p2 : Nat) (a b : Nat) :
    (let t2 := skipNonDigits s p2
     if charAt s t2 == NULc then none
     else
       let r3 := strtoul10 s t2
       if r3.2 == t2 || charAt s r3.2 != NULc || r3.1 > MAX_VERSION then none
       else some (a, b, r3.1)) =
    (let r4 := (s.drop p2).dropWhile (fun c => !c.isDigit)
     let iter := r4.takeWhile Char.isDigit
     let r5 := r4.drop iter.length
     if iter.isEmpty || !r5.isEmpty || digitsVal iter > MAX_VERSION then none
     else some (a, b, digitsVal iter)) := by
  have ht2 : s.drop (skipNonDigits s p2) = (s.drop p2).dropWhile (fun c => !c.isDigit) := by
    rw [skipNonDigits, ← List.drop_drop, drop_length_takeWhile]
  simp only []
  cases hr4 : (s.drop p2).dropWhile (fun c => !c.isDigit) with
  | nil =>
    rw [charAt_drop, ht2, hr4]
    simp [List.takeWhile_nil]
  | cons c4 t4 =>
    have hc4s : c4 ∈ s := List.drop_subset _ _ (by rw [ht2, hr4]; exact List.mem_cons_self c4 t4)
    have hc4 := h c4 hc4s
    have hc4d : c4.isDigit = true := by
      have := dropWhile_head_false _ _ _ _ hr4
      simpa using this
    have hcharAt2 : charAt s (skipNonDigits s p2) = c4 := by
      rw [charAt_drop, ht2, hr4]; rfl
    rw [hcharAt2]
    rw [beq_eq_false_iff_ne.mpr hc4.2.2.2]
    simp only [Bool.false_eq_true, if_false]
    rw [strtoul10_clean s h (skipNonDigits s p2), ht2, hr4]
    have hiter : (c4 :: t4).takeWhile Char.isDigit = c4 :: t4.takeWhile Char.isDigit := by
      rw [List.takeWhile_cons, if_pos hc4d]
    rw [hiter]
    have hlen : (c4 :: t4.takeWhile Char.isDigit).length =
        (t4.takeWhile Char.isDigit).length + 1 := by
      simp
    have hp3ne : (skipNonDigits s p2 + (c4 :: t4.takeWhile Char.isDigit).length ==
        skipNonDigits s p2) = false := by
      rw [hlen]
      exact beq_eq_false_iff_ne.mpr (by omega)
    rw [hp3ne]
    have hdropp3 : s.drop (skipNonDigits s p2 + (c4 :: t4.takeWhile Char.isDigit).length) =
        (c4 :: t4).drop (c4 :: t4.takeWhile Char.isDigit).length := by
      rw [← List.drop_drop, ht2, hr4]
    rw [charAt_drop, hdropp3]
    cases hr5 : (c4 :: t4).drop (c4 :: t4.takeWhile Char.isDigit).length with
    | nil =>
      simp only [List.headD_nil]
      by_cases hu : digitsVal (c4 :: t4.takeWhile Char.isDigit) > MAX_VERSION
      · have : MAX_VERSION < clampU (digitsVal (c4 :: t4.takeWhile Char.isDigit)) :=
          (clampU_gt _).mpr hu
        simp [hu, this]
      · have hcl : clampU (digitsVal (c4 :: t4.takeWhile Char.isDigit)) =
            digitsVal (c4 :: t4.takeWhile Char.isDigit) := clampU_le _ hu
        simp [hu, hcl]
    | cons c5 t5 =>
      have hc5s : c5 ∈ s := by
        have h1 : c5 ∈ (c4 :: t4).drop (c4 :: t4.takeWhile Char.isDigit).length := by
          rw [hr5]; exact List.mem_cons_self c5 t5
        have h2 := List.drop_subset _ _ h1
        have h3 : c5 ∈ s.drop (skipNonDigits s p2) := by
          rw [ht2, hr4]; exact h2
        exact List.drop_subset _ _ h3
      have hc5 := h c5 hc5s
      have hc5ne : (c5 != NULc) = true := by
        simp [bne, beq_eq_false_iff_ne.mpr hc5.2.2.2]
      simp [hc5ne]

set_option maxHeartbeats 2000000 in
/-- Claim C5, amended: on strings free of whitespace, sign, and NUL characters,
parse_version accepts exactly the grammar digits [ "." digits* [ non-digit-run
digits ] ] with every component at most 999 (an empty minor digit run parses as 0),
returning the components versionGrammar computes. -/
theorem parse_version_eq_grammar (s : List Char) (h : cleanStr s) :
    parse_version s = versionGrammar s := by
  have hdropmaj : s.drop (s.takeWhile Char.isDigit).length = s.dropWhile Char.isDigit :=
    drop_length_takeWhile Char.isDigit s
  have h0 : strtoul10 s 0 =
      (clampU (digitsVal (s.takeWhile Char.isDigit)), (s.takeWhile Char.isDigit).length) := by
    rw [strtoul10_clean s h 0, List.drop_zero, Nat.zero_add]
  rw [parse_version, versionGrammar, h0]
  simp only []
  by_cases hM : (s.takeWhile Char.isDigit).isEmpty
  · rw [List.isEmpty_iff] at hM
    simp [hM, digitsVal, clampU]
  · have hMf : (s.takeWhile Char.isDigit).isEmpty = false := by
      simpa using hM
    have hlen : (s.takeWhile Char.isDigit).length ≠ 0 := by
      rw [List.isEmpty_iff] at hM
      simpa [List.length_eq_zero] using hM
    rw [hMf]
    have hp1 : ((s.takeWhile Char.isDigit).length == 0) = false :=
      beq_eq_false_iff_ne.mpr hlen
    rw [hp1]
    rw [charAt_drop, hdropmaj]
    by_cases hv : digitsVal (s.takeWhile Char.isDigit) > MAX_VERSION
    · have hcv : MAX_VERSION < clampU (digitsVal (s.takeWhile Char.isDigit)) :=
        (clampU_gt _).mpr hv
      simp [hv, hcv]
    · have hcl : clampU (digitsVal (s.takeWhile Char.isDigit)) =
          digitsVal (s.takeWhile Char.isDigit) := clampU_le _ hv
      rw [hcl]
      cases hR : s.dropWhile Char.isDigit with
      | nil =>
        simp [hv]
      | cons c r2 =>
        have hcss : c ∈ s := by
          have : c ∈ s.drop (s.takeWhile Char.isDigit).length := by
            rw [hdropmaj, hR]; exact List.mem_cons_self c r2
          exact List.drop_subset _ _ this
        have hcnul : (c == NULc) = false := beq_eq_false_iff_ne.mpr (h c hcss).2.2.2
        simp only [List.headD_cons, hcnul]
        by_cases hdot : c = '.'
        · subst hdot
          have hdropr2 : s.drop ((s.takeWhile Char.isDigit).length + 1) = r2 := by
            rw [← List.drop_drop, hdropmaj, hR]
            rfl
          simp only [bne_self_eq_false, Bool.false_and, Bool.false_or, Bool.or_false]
          have hnv : (decide (MAX_VERSION < digitsVal (s.takeWhile Char.isDigit))) = false :=
            decide_eq_false hv
          rw [hnv]
          simp only [Bool.false_eq_true, if_false, beq_self_eq_true]
          rw [strtoul10_clean s h ((s.takeWhile Char.isDigit).length + 1), hdropr2]
          simp only []
          have hp2 : ((s.takeWhile Char.isDigit).length + 1 +
              (r2.takeWhile Char.isDigit).length == 0) = false :=
            beq_eq_false_iff_ne.mpr (by omega)
          rw [hp2]
          by_cases hw : digitsVal (r2.takeWhile Char.isDigit) > MAX_VERSION
          · have hcw : MAX_VERSION < clampU (digitsVal (r2.takeWhile Char.isDigit)) :=
              (clampU_gt _).mpr hw
            simp [hw, hcw]
          · have hclw : clampU (digitsVal (r2.takeWhile Char.isDigit)) =
                digitsVal (r2.takeWhile Char.isDigit) := clampU_le _ hw
            rw [hclw]
            have hnw : (decide (MAX_VERSION < digitsVal (r2.takeWhile Char.isDigit))) = false :=
              decide_eq_false hw
            rw [hnw]
            simp only [Bool.false_eq_true, if_false, Bool.false_or]
            have hdropp2 : s.drop ((s.takeWhile Char.isDigit).length + 1 +
                (r2.takeWhile Char.isDigit).length) = r2.drop (r2.takeWhile Char.isDigit).length := by
              rw [← List.drop_drop, hdropr2]
            rw [charAt_drop, hdropp2, if_neg hw]
            cases hr3 : r2.drop (r2.takeWhile Char.isDigit).length with
            | nil =>
              simp
            | cons c3 t3 =>
              have hc3s : c3 ∈ s := by
                have h1 : c3 ∈ r2.drop (r2.takeWhile Char.isDigit).length := by
                  rw [hr3]; exact List.mem_cons_self c3 t3
                have h2 := List.drop_subset _ _ h1
                have h3 : c3 ∈ s.drop ((s.takeWhile Char.isDigit).length + 1) := by
                  rw [hdropr2]; exact h2
                exact List.drop_subset _ _ h3
              have hc3nul : (c3 == NULc) = false :=
                beq_eq_false_iff_ne.mpr (h c3 hc3s).2.2.2
              simp only [List.headD_cons, hc3nul, List.isEmpty_cons,
                Bool.false_eq_true, if_false]
              have := parse_iteration_eq s h
                ((s.takeWhile Char.isDigit).length + 1 + (r2.takeWhile Char.isDigit).length)
                (digitsVal (s.takeWhile Char.isDigit)) (digitsVal (r2.takeWhile Char.isDigit))
              simp only [] at this
              rw [this, hdropp2, hr3]
        · have hcdot : (c != '.') = true := by
            simp [bne, beq_eq_false_iff_ne.mpr hdot]
          have hcnul' : c ≠ NULc := beq_eq_false_iff_ne.mp hcnul
          simp [hcdot, hcnul', hv]

/-- Witness for C5 (amended): the clean string "3.4ga10" parses equal to its grammar
reading. -/
theorem parse_version_eq_grammar_witness :
    cleanStr "3.4ga10".data ∧ parse_version "3.4ga10".data = versionGrammar "3.4ga10".data :=
  ⟨by unfold cleanStr; decide, parse_version_eq_grammar "3.4ga10".data (by unfold cleanStr; decide)⟩

/-- Counterexample to C5 as stated: an input whose minor segment after the dot contains
no digits does not fail; the dead `ptr == text` check lets "3.x5" parse as (3,0,5) and
"3." as (3,0,0). -/
theorem parse_version_digitless_minor_accepted :
    parse_version "3.x5".data = some (3, 0, 5) ∧
    parse_version "3.".data = some (3, 0, 0) := by
  exact ⟨by decide, by decide⟩

/-- Claim C9: parse_version on the spec's sample inputs. -/
theorem parse_version_examples :
    parse_version "3.4ga10".data = some (3, 4, 10) ∧
    parse_version "3.5alpha3".data = some (3, 5, 3) ∧
    parse_version "3.4".data = some (3, 4, 0) ∧
    parse_version "3".data = some (3, 0, 0) ∧
    parse_version "bad".data = none := by
  exact ⟨by decide, by decide, by decide, by decide, by decide⟩

/-- Counterexample to C2 as stated: no pair of versions exists for which the check
accepts a current whose major exceeds the minimum's while its minor is below it; the
independent minor comparison rejects every such pair. -/
theorem check_min_version_never_accepts_lower_minor :
    ¬ ∃ a b c d e f : Nat, a > d ∧ b < e ∧ check_min_version_ok a b c d e f = true := by
  rintro ⟨a, b, c, d, e, f, -, hlt, hok⟩
  rw [check_min_version_ok, if_pos (Or.inr (Or.inl hlt))] at hok
  exact Bool.false_ne_true hok

/-- Claim C2 amended: the startup check compares major, minor, and iteration
independently, so it rejects any current version with a component below the minimum's
corresponding component, even when the current major is strictly greater (the current
version being lexicographically greater): the check fails rather than accepts. -/
theorem check_min_version_rejects_lower_minor (a b c d e f : Nat)
    (_hmaj : a > d) (hmin : b < e) : check_min_version_ok a b c d e f = false := by
  rw [check_min_version_ok, if_pos (Or.inr (Or.inl hmin))]

/-- Witness for C2 (amended): current 4.0.0 against minimum 3.5.0 is rejected. -/
theorem check_min_version_rejects_lower_minor_witness :
    4 > 3 ∧ 0 < 5 ∧ check_min_version_ok 4 0 0 3 5 0 = false :=
  ⟨by decide, by decide, check_min_version_rejects_lower_minor 4 0 0 3 5 0 (by decide) (by decide)⟩

/-- b3270_connect always leaves old_cstate equal to the notified state. -/
theorem b3270_connect_old_cstate (cs : Cstate) (ns : Counters) (host : String)
    (st : TrackState) : (b3270_connect cs ns host st).1.old_cstate = cs := by
  rw [b3270_connect]
  split
  · next heq => exact heq.symm
  · rfl

theorem stats_poll_old_cstate (ns : Counters) (st : TrackState) :
    (stats_poll ns st).1.old_cstate = st.old_cstate := by
  rw [stats_poll]
  split <;> rfl

theorem stats_poll_no_conn (ns : Counters) (st : TrackState) :
    countConn (stats_poll ns st).2 = 0 := by
  rw [stats_poll]
  split <;> rfl

/-- Each notification emits exactly one connection event when the state changed,
none otherwise. -/
theorem b3270_connect_conn_count (cs : Cstate) (ns : Counters) (host : String)
    (st : TrackState) :
    countConn (b3270_connect cs ns host st).2 = if cs ≠ st.old_cstate then 1 else 0 := by
  rw [b3270_connect]
  split
  · next heq => simp [heq, countConn]
  · next hne =>
    simp only [countConn, List.countP_append]
    split_ifs <;> simp [dump_stats, List.countP_cons, hne]

/-- Over a whole input sequence, the number of connection events is the number of
distinct-from-previous notifications. -/
theorem trackRun_conn_count (ins : List TrackIn) (st : TrackState) :
    countConn (trackRun st ins).2 = countChanges st.old_cstate ins := by
  induction ins generalizing st with
  | nil => rfl
  | cons i is ih =>
    cases i with
    | tick ns =>
      rw [trackRun, countChanges]
      simp only [trackStep, countConn, List.countP_append]
      have h1 := stats_poll_no_conn ns st
      have h2 := ih (stats_poll ns st).1
      rw [countConn] at h1 h2
      rw [h1, h2, stats_poll_old_cstate]
      simp
    | notify cs ns host =>
      rw [trackRun, countChanges]
      simp only [trackStep, countConn, List.countP_append]
      have h1 := b3270_connect_conn_count cs ns host st
      have h2 := ih (b3270_connect cs ns host st).1
      rw [countConn] at h1 h2
      rw [h1, h2, b3270_connect_old_cstate]

/-- Claim C6: over every sequence of engine state notifications (and timer ticks),
exactly one connection event is emitted per notification whose state differs from
the previously observed value, and a notification equal to the previous state is
fully suppressed. -/
theorem connection_events_edge_triggered (st : TrackState) (ins : List TrackIn) :
    countConn (trackRun st ins).2 = countChanges st.old_cstate ins ∧
    (∀ ns host, b3270_connect st.old_cstate ns host st = (st, [])) := by
  refine ⟨trackRun_conn_count ins st, fun ns host => ?_⟩
  rw [b3270_connect, if_pos rfl]

/-- Counterexample to C3 as stated: at a connect boundary the counters are reset and
dumped unconditionally; with the last snapshot and the current counters both zero,
nothing differs yet a stats event is emitted. -/
theorem stats_connect_emits_without_change :
    b3270_connect .CONNECTED_3270 ⟨0, 0, 0, 0⟩ "host"
        ⟨⟨0, 0, 0, 0⟩, false, .NOT_CONNECTED⟩ =
      (⟨⟨0, 0, 0, 0⟩, true, .CONNECTED_3270⟩,
       [Ev.connection .CONNECTED_3270 (some "host"), Ev.stats ⟨0, 0, 0, 0⟩]) := by
  rfl

/-- Claim C3 amended: at a periodic tick and at a disconnect boundary a stats event
is emitted exactly when at least one counter differs from the last emitted snapshot;
at a connect boundary (state change to a connected state with the timer unarmed) the
baseline is zeroed and a stats event is emitted unconditionally. -/
theorem stats_events_iff_changed :
    (∀ ns st, (stats_poll ns st).2 = if st.last ≠ ns then [Ev.stats ns] else []) ∧
    (∀ ns host last old,
      (b3270_connect .NOT_CONNECTED ns host ⟨last, true, old⟩).2 =
        if old = .NOT_CONNECTED then []
        else (if last ≠ ns then [Ev.stats ns] else []) ++
          [Ev.connection .NOT_CONNECTED none]) ∧
    (∀ cs ns host last old,
      (b3270_connect cs ns host ⟨last, false, old⟩).2 =
        if cs = old then []
        else if cs = .NOT_CONNECTED then [Ev.connection .NOT_CONNECTED none]
        else [Ev.connection cs (some host), Ev.stats ⟨0, 0, 0, 0⟩]) := by
  refine ⟨fun ns st => ?_, fun ns host last old => ?_, fun cs ns host last old => ?_⟩
  · rw [stats_poll]
    split <;> simp_all [dump_stats]
  · rw [b3270_connect]
    split_ifs <;> simp_all [dump_stats]
  · rw [b3270_connect]
    split_ifs <;> simp_all [dump_stats]

/-- Claim C10: a toggle-change notification whose index is absent from the
display-name table emits nothing (the handler mutates no state); for a present
index, the emitted toggle event carries a file attribute exactly when the index is
the tracing toggle, the toggle is on, and a trace file name is set. -/
theorem b3270_toggle_events (env : ToggleEnv) (ix : Nat) :
    (env.toggle_names.find? (fun tn => tn.index == ix) = none →
      b3270_toggle env ix = []) ∧
    (∀ tn, env.toggle_names.find? (fun tn => tn.index == ix) = some tn →
      (b3270_toggle env ix).map (fun e => e.2.lookup "file") =
        [if ix = env.TRACING ∧ env.toggled ix = true then env.tracefile_name else none]) := by
  constructor
  · intro hnone
    rw [b3270_toggle, hnone]
  · intro tn hsome
    rw [b3270_toggle, hsome]
    simp only [List.map, ui_vleaf, List.filterMap]
    by_cases htr : ix = env.TRACING
    · by_cases hon : env.toggled ix = true
      · subst htr
        cases hf : env.tracefile_name with
        | none => simp [hon, hf, List.lookup]
        | some f => simp [hon, hf, List.lookup]
      · have hon' : env.toggled ix = false := by
          cases h : env.toggled ix
          · rfl
          · exact absurd h hon
        subst htr
        cases hf : env.tracefile_name with
        | none => simp [hon', hf, List.lookup]
        | some f => simp [hon', hf, List.lookup]
    · have htr' : (ix == env.TRACING) = false :=
        beq_eq_false_iff_ne.mpr htr
      cases hf : env.tracefile_name with
      | none => simp [htr, htr', hf, List.lookup]
      | some f => simp [htr, htr', hf, List.lookup]

/-- Witness for C10: a concrete environment where the tracing toggle is on with a
trace file set; the lookup succeeds and the emitted event's file attribute is the
trace file. -/
theorem b3270_toggle_events_witness :
    (ToggleEnv.mk [⟨"tracing", 3⟩] (fun _ => true) 3 (some "x")).toggle_names.find?
        (fun tn => tn.index == 3) = some ⟨"tracing", 3⟩ ∧
    (b3270_toggle (ToggleEnv.mk [⟨"tracing", 3⟩] (fun _ => true) 3 (some "x")) 3).map
        (fun e => e.2.lookup "file") =
      [if 3 = (ToggleEnv.mk [⟨"tracing", 3⟩] (fun _ => true) 3 (some "x")).TRACING ∧
          (ToggleEnv.mk [⟨"tracing", 3⟩] (fun _ => true) 3 (some "x")).toggled 3 = true
       then (ToggleEnv.mk [⟨"tracing", 3⟩] (fun _ => true) 3 (some "x")).tracefile_name
       else none] :=
  ⟨rfl, (b3270_toggle_events (ToggleEnv.mk [⟨"tracing", 3⟩] (fun _ => true) 3 (some "x")) 3).2
    ⟨"tracing", 3⟩ rfl⟩

/-- Claim C7: a Model invocation with one or two arguments while a connection is
active fails and returns the emulator state (model number, color mode, oversize,
geometry) unchanged. -/
theorem Model_action_connected_fails (args : List (List Char)) (st : EmuState)
    (h1 : 1 ≤ args.length) (h2 : args.length ≤ 2) :
    Model_action true args st = (false, st, []) := by
  cases args with
  | nil => simp at h1
  | cons a as =>
    rw [Model_action.eq_def, if_neg (by omega)]
    rfl

/-- Witness for C7: Model("3278-2","24x80") while connected fails and leaves a
model-4 color configuration untouched. -/
theorem Model_action_connected_fails_witness :
    1 ≤ ["3278-2".data, "24x80".data].length ∧ ["3278-2".data, "24x80".data].length ≤ 2 ∧
    Model_action true ["3278-2".data, "24x80".data] ⟨4, true, 0, 0, 43, 80, 43, 80⟩ =
      (false, ⟨4, true, 0, 0, 43, 80, 43, 80⟩, []) :=
  ⟨by decide, by decide,
   Model_action_connected_fails ["3278-2".data, "24x80".data]
     ⟨4, true, 0, 0, 43, 80, 43, 80⟩ (by decide) (by decide)⟩

/-- Claim C1 (evaluated at the failing input): ClearRegion(1,1,-1,1) on a 43x80
screen reports "invalid size" yet still returns success with the buffer unchanged,
and ClearRegion(0,1,0,0) reports "invalid coordinates" yet still returns success:
the error branches fall through instead of failing. -/
theorem ClearRegion_invalid_still_succeeds :
    ClearRegion_action 43 80 (fun _ => Cell.mk 0x40 0 false false Dbcs.none false)
        1 1 (-1) 1 =
      (true, ["ClearRegion: invalid size"],
       fun _ => Cell.mk 0x40 0 false false Dbcs.none false) ∧
    ClearRegion_action 43 80 (fun _ => Cell.mk 0x40 0 false false Dbcs.none false)
        0 1 0 0 =
      (true, ["ClearRegion: invalid coordinates"],
       fun _ => Cell.mk 0x40 0 false false Dbcs.none false) := by
  constructor
  · rfl
  · rfl

theorem clearedCell_idem (c : Cell) : clearedCell (clearedCell c) = clearedCell c := rfl

/-- The structural fields (fa, prot, db, cs) of evolved buffers match the original. -/
theorem evolved_struct {N : Nat} {buf0 buf : Buf} (h : Evolved N buf0 buf) (x : Int) :
    (buf x).fa = (buf0 x).fa ∧ (buf x).prot = (buf0 x).prot ∧
    (buf x).db = (buf0 x).db ∧ (buf x).cs = (buf0 x).cs := by
  rcases h x with he | ⟨-, he⟩ <;> rw [he] <;> simp [clearedCell]

/-- Clearing an evolved cell gives the clearing of the original cell. -/
theorem clearedCell_evolved {N : Nat} {buf0 buf : Buf} (h : Evolved N buf0 buf)
    (x : Int) : clearedCell (buf x) = clearedCell (buf0 x) := by
  rcases h x with he | ⟨-, he⟩
  · rw [he]
  · rw [he, clearedCell_idem]

/-- Field protection depends only on the fa and prot fields. -/
theorem protAt_congr (N : Nat) (buf0 buf : Buf)
    (h : ∀ x, (buf x).fa = (buf0 x).fa ∧ (buf x).prot = (buf0 x).prot) (q : Int) :
    protAt N buf q = protAt N buf0 q := by
  unfold protAt
  have hf : (fun k : Nat => (buf ((q - (k : Int)).emod N)).fa) =
      (fun k : Nat => (buf0 ((q - (k : Int)).emod N)).fa) :=
    funext fun k => (h _).1
  rw [hf]
  cases hfind : (List.range N).find? (fun k : Nat => (buf0 ((q - (k : Int)).emod N)).fa) with
  | none => rfl
  | some k => exact (h _).2

/-- The skip test is stable along the evolution of the buffer. -/
theorem evolved_skip {N : Nat} {buf0 buf : Buf} (h : Evolved N buf0 buf) (x : Int) :
    skipCell N buf x = skipCell N buf0 x := by
  have hs := evolved_struct h
  have hp := protAt_congr N buf0 buf (fun y => ⟨(hs y).1, (hs y).2.1⟩) x
  rcases h x with he | ⟨hsk, he⟩
  · unfold skipCell
    rw [hp, he]
  · rw [hsk]
    unfold skipCell at hsk
    simp only [Bool.or_eq_false_iff] at hsk
    unfold skipCell
    rw [hp, he]
    simp [clearedCell, hsk.1.1.1, hsk.1.1.2, EBC_space, EBC_so, EBC_si]

/-- WF instantiated at an integer address in range. -/
theorem wf_at {N : Nat} {buf0 : Buf} (hwf : WF N buf0) {p : Int}
    (h0 : 0 ≤ p) (hN : p < (N : Int)) :
    ((buf0 p).db = .left →
      (buf0 (INC_BA N p)).db = .right ∧ (buf0 (INC_BA N p)).cs = (buf0 p).cs ∧
      protAt N buf0 (INC_BA N p) = protAt N buf0 p) ∧
    ((buf0 p).db = .right →
      (buf0 (DEC_BA N p)).db = .left ∧ (buf0 (DEC_BA N p)).cs = (buf0 p).cs ∧
      protAt N buf0 (DEC_BA N p) = protAt N buf0 p) ∧
    ((buf0 p).fa = true → (buf0 p).db = .none) ∧
    ((buf0 p).cc = EBC_so ∨ (buf0 p).cc = EBC_si → (buf0 p).db = .none) := by
  have hk : p.toNat < N := by omega
  have h := hwf p.toNat hk
  rwa [Int.toNat_of_nonneg h0] at h

theorem skip_false_parts {N : Nat} {buf0 : Buf} {x : Int}
    (h : skipCell N buf0 x = false) :
    (buf0 x).fa = false ∧ protAt N buf0 x = false ∧
    ((buf0 x).cc == EBC_so) = false ∧ ((buf0 x).cc == EBC_si) = false := by
  unfold skipCell at h
  simp only [Bool.or_eq_false_iff] at h
  exact ⟨h.1.1.1, h.1.1.2, h.1.2, h.2⟩

theorem skip_false_of {N : Nat} {buf0 : Buf} {x : Int}
    (h1 : (buf0 x).fa = false) (h2 : protAt N buf0 x = false)
    (h3 : (buf0 x).cc ≠ EBC_so) (h4 : (buf0 x).cc ≠ EBC_si) :
    skipCell N buf0 x = false := by
  unfold skipCell
  rw [h1, h2, beq_eq_false_iff_ne.mpr h3, beq_eq_false_iff_ne.mpr h4]
  rfl

/-- The right-hand partner of an unprotected left half is itself not skipped, shares
its display class, and is a right half. -/
theorem partner_skip_left {N : Nat} {buf0 : Buf} (hwf : WF N buf0) {p : Int}
    (h0 : 0 ≤ p) (hN : p < (N : Int)) (hdb : (buf0 p).db = .left)
    (hsk : skipCell N buf0 p = false) :
    skipCell N buf0 (INC_BA N p) = false ∧ (buf0 (INC_BA N p)).cs = (buf0 p).cs ∧
    (buf0 (INC_BA N p)).db = .right ∧ INC_BA N p ≠ p := by
  obtain ⟨hr, hcs, hprot⟩ := (wf_at hwf h0 hN).1 hdb
  have hin0 : 0 ≤ INC_BA N p := Int.emod_nonneg _ (by omega)
  have hinN : INC_BA N p < (N : Int) := Int.emod_lt_of_pos _ (by omega)
  have hw2 := wf_at hwf hin0 hinN
  have hfa : (buf0 (INC_BA N p)).fa = false := by
    by_contra hc
    have hc' : (buf0 (INC_BA N p)).fa = true := by simpa using hc
    exact Dbcs.noConfusion (hr.symm.trans (hw2.2.2.1 hc'))
  have hso : (buf0 (INC_BA N p)).cc ≠ EBC_so := fun hc =>
    Dbcs.noConfusion (hr.symm.trans (hw2.2.2.2 (Or.inl hc)))
  have hsi : (buf0 (INC_BA N p)).cc ≠ EBC_si := fun hc =>
    Dbcs.noConfusion (hr.symm.trans (hw2.2.2.2 (Or.inr hc)))
  have hpr : protAt N buf0 (INC_BA N p) = false := by
    rw [hprot]
    exact (skip_false_parts hsk).2.1
  have hne : INC_BA N p ≠ p := fun he =>
    Dbcs.noConfusion ((he ▸ hr).symm.trans hdb)
  exact ⟨skip_false_of hfa hpr hso hsi, hcs, hr, hne⟩

/-- The left-hand partner of an unprotected right half is itself not skipped, shares
its display class, and is a left half. -/
theorem partner_skip_right {N : Nat} {buf0 : Buf} (hwf : WF N buf0) {p : Int}
    (h0 : 0 ≤ p) (hN : p < (N : Int)) (hdb : (buf0 p).db = .right)
    (hsk : skipCell N buf0 p = false) :
    skipCell N buf0 (DEC_BA N p) = false ∧ (buf0 (DEC_BA N p)).cs = (buf0 p).cs ∧
    (buf0 (DEC_BA N p)).db = .left ∧ DEC_BA N p ≠ p := by
  obtain ⟨hl, hcs, hprot⟩ := (wf_at hwf h0 hN).2.1 hdb
  have hin0 : 0 ≤ DEC_BA N p := Int.emod_nonneg _ (by omega)
  have hinN : DEC_BA N p < (N : Int) := Int.emod_lt_of_pos _ (by omega)
  have hw2 := wf_at hwf hin0 hinN
  have hfa : (buf0 (DEC_BA N p)).fa = false := by
    by_contra hc
    have hc' : (buf0 (DEC_BA N p)).fa = true := by simpa using hc
    exact Dbcs.noConfusion (hl.symm.trans (hw2.2.2.1 hc'))
  have hso : (buf0 (DEC_BA N p)).cc ≠ EBC_so := fun hc =>
    Dbcs.noConfusion (hl.symm.trans (hw2.2.2.2 (Or.inl hc)))
  have hsi : (buf0 (DEC_BA N p)).cc ≠ EBC_si := fun hc =>
    Dbcs.noConfusion (hl.symm.trans (hw2.2.2.2 (Or.inr hc)))
  have hpr : protAt N buf0 (DEC_BA N p) = false := by
    rw [hprot]
    exact (skip_false_parts hsk).2.1
  have hne : DEC_BA N p ≠ p := fun he =>
    Dbcs.noConfusion ((he ▸ hl).symm.trans hdb)
  exact ⟨skip_false_of hfa hpr hso hsi, hcs, hl, hne⟩

/-- A non-skipped cell is cleared in place by the loop body. -/
theorem clearStep_writes_self {N : Nat} {buf : Buf} {p : Int}
    (hskb : skipCell N buf p = false) :
    clearStep N buf p p = clearedCell (buf p) := by
  rw [clearStep, if_neg (by simp [hskb])]
  cases hdb : (buf p).db with
  | none => simp [mdt_set, ctlr_add, clearedCell]
  | sb => simp [mdt_set, ctlr_add, clearedCell]
  | left =>
    by_cases hpi : p = INC_BA N p
    · simp [mdt_set, ctlr_add, clearedCell, ← hpi]
    · simp [mdt_set, ctlr_add, clearedCell, hpi]
  | right =>
    by_cases hpd : p = DEC_BA N p
    · simp [mdt_set, ctlr_add, clearedCell, ← hpd]
    · simp [mdt_set, ctlr_add, clearedCell, hpd]

/-- The partner of a non-skipped left half is written with the left half's display
class. -/
theorem clearStep_writes_partner_left {N : Nat} {buf : Buf} {p : Int}
    (hskb : skipCell N buf p = false) (hdb : (buf p).db = .left)
    (hne : INC_BA N p ≠ p) :
    clearStep N buf p (INC_BA N p) =
      { buf (INC_BA N p) with cc := EBC_space, cs := (buf p).cs, dirty := true } := by
  rw [clearStep, if_neg (by simp [hskb]), hdb]
  simp [mdt_set, ctlr_add, hne]

/-- The partner of a non-skipped right half is written with the right half's display
class. -/
theorem clearStep_writes_partner_right {N : Nat} {buf : Buf} {p : Int}
    (hskb : skipCell N buf p = false) (hdb : (buf p).db = .right)
    (hne : DEC_BA N p ≠ p) :
    clearStep N buf p (DEC_BA N p) =
      { buf (DEC_BA N p) with cc := EBC_space, cs := (buf p).cs, dirty := true } := by
  rw [clearStep, if_neg (by simp [hskb]), hdb]
  simp [mdt_set, ctlr_add, hne]

/-- Cells other than the stepped cell and its written partner are untouched. -/
theorem clearStep_untouched {N : Nat} {buf : Buf} {p x : Int} (hxp : x ≠ p)
    (hxi : (buf p).db = .left → x ≠ INC_BA N p)
    (hxd : (buf p).db = .right → x ≠ DEC_BA N p) :
    clearStep N buf p x = buf x := by
  rw [clearStep]
  split
  · rfl
  · cases hdb : (buf p).db with
    | none => simp [mdt_set, ctlr_add, hxp]
    | sb => simp [mdt_set, ctlr_add, hxp]
    | left => simp [mdt_set, ctlr_add, hxp, hxi hdb]
    | right => simp [mdt_set, ctlr_add, hxp, hxd hdb]

/-- A cell written with the display class of its original partner becomes the
clearing of its original self. -/
theorem cleared_partner_eq {N : Nat} {buf0 buf : Buf} (hev : Evolved N buf0 buf)
    {y : Int} {csv : Nat} (hcs : csv = (buf0 y).cs) :
    { buf y with cc := EBC_space, cs := csv, dirty := true } = clearedCell (buf0 y) := by
  rcases hev y with he | ⟨-, he⟩ <;> rw [he, hcs] <;> rfl

/-- Every loop step either leaves a cell alone or clears it; only cells the original
buffer does not skip are ever touched. -/
theorem clearStep_delta {N : Nat} {buf0 buf : Buf} (hwf : WF N buf0)
    (hev : Evolved N buf0 buf) {p : Int} (h0 : 0 ≤ p) (hN : p < (N : Int)) (x : Int) :
    clearStep N buf p x = buf x ∨
      (skipCell N buf0 x = false ∧ clearStep N buf p x = clearedCell (buf0 x)) := by
  by_cases hsk : skipCell N buf p = true
  · left
    rw [clearStep, if_pos hsk]
  · have hskb : skipCell N buf p = false := by simpa using hsk
    have hsk0 : skipCell N buf0 p = false := by
      rw [← evolved_skip hev p]
      exact hskb
    have hst := evolved_struct hev
    by_cases hxp : x = p
    · subst hxp
      exact Or.inr ⟨hsk0, (clearStep_writes_self hskb).trans (clearedCell_evolved hev x)⟩
    · have hdbp : (buf p).db = (buf0 p).db := (hst p).2.2.1
      cases hdb0 : (buf0 p).db with
      | none =>
        have hdbn : (buf p).db = Dbcs.none := hdbp.trans hdb0
        exact Or.inl (clearStep_untouched hxp
          (fun h => Dbcs.noConfusion (hdbn.symm.trans h))
          (fun h => Dbcs.noConfusion (hdbn.symm.trans h)))
      | sb =>
        have hdbn : (buf p).db = Dbcs.sb := hdbp.trans hdb0
        exact Or.inl (clearStep_untouched hxp
          (fun h => Dbcs.noConfusion (hdbn.symm.trans h))
          (fun h => Dbcs.noConfusion (hdbn.symm.trans h)))
      | left =>
        have hdbl : (buf p).db = Dbcs.left := hdbp.trans hdb0
        obtain ⟨hps, hcs2, -, hnep⟩ := partner_skip_left hwf h0 hN hdb0 hsk0
        by_cases hxi : x = INC_BA N p
        · subst hxi
          refine Or.inr ⟨hps, ?_⟩
          rw [clearStep_writes_partner_left hskb hdbl hnep]
          exact cleared_partner_eq hev ((hst p).2.2.2.trans hcs2.symm)
        · exact Or.inl (clearStep_untouched hxp (fun _ => hxi)
            (fun h => Dbcs.noConfusion (hdbl.symm.trans h)))
      | right =>
        have hdbr : (buf p).db = Dbcs.right := hdbp.trans hdb0
        obtain ⟨hps, hcs2, -, hnep⟩ := partner_skip_right hwf h0 hN hdb0 hsk0
        by_cases hxd : x = DEC_BA N p
        · subst hxd
          refine Or.inr ⟨hps, ?_⟩
          rw [clearStep_writes_partner_right hskb hdbr hnep]
          exact cleared_partner_eq hev ((hst p).2.2.2.trans hcs2.symm)
        · exact Or.inl (clearStep_untouched hxp
            (fun h => Dbcs.noConfusion (hdbr.symm.trans h)) (fun _ => hxd))

theorem clearStep_evolved {N : Nat} {buf0 buf : Buf} (hwf : WF N buf0)
    (hev : Evolved N buf0 buf) {p : Int} (h0 : 0 ≤ p) (hN : p < (N : Int)) :
    Evolved N buf0 (clearStep N buf p) := by
  intro x
  rcases clearStep_delta hwf hev h0 hN x with h | ⟨hs, h⟩
  · rw [h]
    exact hev x
  · exact Or.inr ⟨hs, h⟩

theorem clearStep_keeps_cleared {N : Nat} {buf0 buf : Buf} (hwf : WF N buf0)
    (hev : Evolved N buf0 buf) {p : Int} (h0 : 0 ≤ p) (hN : p < (N : Int)) (x : Int)
    (hc : buf x = clearedCell (buf0 x)) :
    clearStep N buf p x = clearedCell (buf0 x) := by
  rcases clearStep_delta hwf hev h0 hN x with h | ⟨-, h⟩
  · rw [h, hc]
  · exact h

theorem foldl_evolved {N : Nat} {buf0 : Buf} (hwf : WF N buf0) (l : List Int)
    (hl : ∀ p ∈ l, 0 ≤ p ∧ p < (N : Int)) (buf : Buf) (hev : Evolved N buf0 buf) :
    Evolved N buf0 (l.foldl (clearStep N) buf) := by
  induction l generalizing buf with
  | nil => exact hev
  | cons p l ih =>
    rw [List.foldl_cons]
    have hp := hl p (List.mem_cons_self p l)
    exact ih (fun q hq => hl q (List.mem_cons_of_mem _ hq)) _
      (clearStep_evolved hwf hev hp.1 hp.2)

theorem foldl_keeps_cleared {N : Nat} {buf0 : Buf} (hwf : WF N buf0) (l : List Int)
    (hl : ∀ p ∈ l, 0 ≤ p ∧ p < (N : Int)) (buf : Buf) (hev : Evolved N buf0 buf)
    (x : Int) (hc : buf x = clearedCell (buf0 x)) :
    (l.foldl (clearStep N) buf) x = clearedCell (buf0 x) := by
  induction l generalizing buf with
  | nil => exact hc
  | cons p l ih =>
    rw [List.foldl_cons]
    have hp := hl p (List.mem_cons_self p l)
    exact ih (fun q hq => hl q (List.mem_cons_of_mem _ hq)) _
      (clearStep_evolved hwf hev hp.1 hp.2)
      (clearStep_keeps_cleared hwf hev hp.1 hp.2 x hc)

/-- Any visited non-skipped address ends up cleared, together with its double-byte
partner when it is a half of a pair. -/
theorem foldl_clears {N : Nat} {buf0 : Buf} (hwf : WF N buf0) (l : List Int)
    (hl : ∀ p ∈ l, 0 ≤ p ∧ p < (N : Int)) {q : Int} (hq : q ∈ l)
    (hsk0 : skipCell N buf0 q = false) :
    (l.foldl (clearStep N) buf0) q = clearedCell (buf0 q) ∧
    ((buf0 q).db = .left →
      (l.foldl (clearStep N) buf0) (INC_BA N q) = clearedCell (buf0 (INC_BA N q))) ∧
    ((buf0 q).db = .right →
      (l.foldl (clearStep N) buf0) (DEC_BA N q) = clearedCell (buf0 (DEC_BA N q))) := by
  obtain ⟨l1, l2, rfl⟩ := List.append_of_mem hq
  have hl1 : ∀ p ∈ l1, 0 ≤ p ∧ p < (N : Int) := fun p hp =>
    hl p (List.mem_append_left _ hp)
  have hl2 : ∀ p ∈ l2, 0 ≤ p ∧ p < (N : Int) := fun p hp =>
    hl p (List.mem_append_right _ (List.mem_cons_of_mem _ hp))
  have hq0 := hl q (List.mem_append_right _ (List.mem_cons_self q l2))
  rw [List.foldl_append, List.foldl_cons]
  have hev1 : Evolved N buf0 (l1.foldl (clearStep N) buf0) :=
    foldl_evolved hwf l1 hl1 buf0 (fun x => Or.inl rfl)
  have hskb1 : skipCell N (l1.foldl (clearStep N) buf0) q = false := by
    rw [evolved_skip hev1 q]
    exact hsk0
  have hev2 : Evolved N buf0 (clearStep N (l1.foldl (clearStep N) buf0) q) :=
    clearStep_evolved hwf hev1 hq0.1 hq0.2
  refine ⟨?_, ?_, ?_⟩
  · exact foldl_keeps_cleared hwf l2 hl2 _ hev2 q
      ((clearStep_writes_self hskb1).trans (clearedCell_evolved hev1 q))
  · intro hdb
    have hdbl : ((l1.foldl (clearStep N) buf0) q).db = Dbcs.left :=
      (evolved_struct hev1 q).2.2.1.trans hdb
    obtain ⟨-, hcs2, -, hnep⟩ := partner_skip_left hwf hq0.1 hq0.2 hdb hsk0
    refine foldl_keeps_cleared hwf l2 hl2 _ hev2 _ ?_
    rw [clearStep_writes_partner_left hskb1 hdbl hnep]
    exact cleared_partner_eq hev1 ((evolved_struct hev1 q).2.2.2.trans hcs2.symm)
  · intro hdb
    have hdbr : ((l1.foldl (clearStep N) buf0) q).db = Dbcs.right :=
      (evolved_struct hev1 q).2.2.1.trans hdb
    obtain ⟨-, hcs2, -, hnep⟩ := partner_skip_right hwf hq0.1 hq0.2 hdb hsk0
    refine foldl_keeps_cleared hwf l2 hl2 _ hev2 _ ?_
    rw [clearStep_writes_partner_right hskb1 hdbr hnep]
    exact cleared_partner_eq hev1 ((evolved_struct hev1 q).2.2.2.trans hcs2.symm)

/-- Rectangle addresses of a validated non-empty rectangle lie in the buffer. -/
theorem rectAddrs_bounds (ROWS COLS : Nat) (row column rows columns : Int)
    (hrow : 1 ≤ row) (hcol : 1 ≤ column)
    (hre : row - 1 + rows ≤ (ROWS : Int)) (hce : column - 1 + columns ≤ (COLS : Int)) :
    ∀ q ∈ rectAddrs (COLS : Int) row column rows columns,
      0 ≤ q ∧ q < ((ROWS * COLS : Nat) : Int) := by
  intro q hq
  rw [rectAddrs] at hq
  simp only [List.mem_flatMap, List.mem_map, List.mem_range] at hq
  obtain ⟨i, hi, j, hj, rfl⟩ := hq
  have hi' : (i : Int) < rows := by omega
  have hj' : (j : Int) < columns := by omega
  have hr0 : 0 ≤ row - 1 + (i : Int) := by omega
  have hrR : row - 1 + (i : Int) < (ROWS : Int) := by omega
  have hc0 : 0 ≤ column - 1 + (j : Int) := by omega
  have hcC : column - 1 + (j : Int) < (COLS : Int) := by omega
  have hCnn : (0 : Int) ≤ (COLS : Int) := by exact_mod_cast Nat.zero_le COLS
  constructor
  · exact add_nonneg (mul_nonneg hr0 hCnn) hc0
  · have h1 : (row - 1 + (i : Int)) * COLS + (column - 1 + (j : Int)) <
        (row - 1 + (i : Int)) * COLS + COLS := by omega
    have h2 : (row - 1 + (i : Int)) * COLS + (COLS : Int) =
        (row - 1 + (i : Int) + 1) * COLS := by ring
    have h3 : (row - 1 + (i : Int) + 1) * COLS ≤ (ROWS : Int) * COLS :=
      mul_le_mul_of_nonneg_right (by omega) hCnn
    have h4 : ((ROWS * COLS : Nat) : Int) = (ROWS : Int) * COLS := by push_cast; ring
    omega

/-- Claim C4: on a valid non-empty rectangle, ClearRegion succeeds without error and,
for every rectangle address: a skipped cell (field attribute, protected, or SO/SI) is
completely unchanged and not marked modified; a non-skipped cell is replaced by a
space in its current display class and marked modified, and a double-byte half is
cleared together with its partner cell. -/
theorem ClearRegion_valid_clears (ROWS COLS : Nat) (buf : Buf)
    (row column rows columns : Int)
    (hrow1 : 1 ≤ row) (hrow2 : row ≤ (ROWS : Int))
    (hcol1 : 1 ≤ column) (hcol2 : column ≤ (COLS : Int))
    (hrows : 0 < rows) (hcols : 0 < columns)
    (hre : row - 1 + rows ≤ (ROWS : Int)) (hce : column - 1 + columns ≤ (COLS : Int))
    (hwf : WF (ROWS * COLS) buf) :
    (ClearRegion_action ROWS COLS buf row column rows columns).1 = true ∧
    (ClearRegion_action ROWS COLS buf row column rows columns).2.1 = [] ∧
    ∀ q ∈ rectAddrs (COLS : Int) row column rows columns,
      (skipCell (ROWS * COLS) buf q = true →
        (ClearRegion_action ROWS COLS buf row column rows columns).2.2 q = buf q) ∧
      (skipCell (ROWS * COLS) buf q = false →
        (((buf q).db = .none ∨ (buf q).db = .sb) →
          (ClearRegion_action ROWS COLS buf row column rows columns).2.2 q =
            clearedCell (buf q)) ∧
        ((buf q).db = .left →
          (ClearRegion_action ROWS COLS buf row column rows columns).2.2 q =
            clearedCell (buf q) ∧
          (ClearRegion_action ROWS COLS buf row column rows columns).2.2
              (INC_BA (ROWS * COLS) q) =
            clearedCell (buf (INC_BA (ROWS * COLS) q))) ∧
        ((buf q).db = .right →
          (ClearRegion_action ROWS COLS buf row column rows columns).2.2 q =
            clearedCell (buf q) ∧
          (ClearRegion_action ROWS COLS buf row column rows columns).2.2
              (DEC_BA (ROWS * COLS) q) =
            clearedCell (buf (DEC_BA (ROWS * COLS) q)))) := by
  have hN : (((ROWS : Int)) * ((COLS : Int))).toNat = ROWS * COLS := by
    rw [← Nat.cast_mul, Int.toNat_natCast]
  have hc1 : ¬(row ≤ 0 ∨ row > (ROWS : Int) ∨ column ≤ 0 ∨ column > (COLS : Int)) := by
    omega
  have hc2 : ¬(rows < 0 ∨ columns < 0 ∨ row - 1 + rows > (ROWS : Int) ∨
      column - 1 + columns > (COLS : Int)) := by
    omega
  have hz : ¬(rows = 0 ∨ columns = 0) := by omega
  rw [ClearRegion_action]
  simp only [if_neg hc1, if_neg hc2, if_neg hz, List.append_nil, hN]
  refine ⟨trivial, trivial, ?_⟩
  intro q hq
  have hall := rectAddrs_bounds ROWS COLS row column rows columns hrow1 hcol1 hre hce
  constructor
  · intro hsk
    rcases foldl_evolved hwf _ hall buf (fun x => Or.inl rfl) q with h | ⟨hs, -⟩
    · exact h
    · simp [hsk] at hs
  · intro hsk
    have h := foldl_clears hwf _ hall hq hsk
    exact ⟨fun _ => h.1, fun hdb => ⟨h.1, h.2.1 hdb⟩, fun hdb => ⟨h.1, h.2.2 hdb⟩⟩

/-- Witness for C4: a 2x3 screen with a double-byte pair at addresses 1 and 2; the
rectangle covering only the left half clears both halves. -/
theorem ClearRegion_valid_clears_witness :
    (1 ≤ (1 : Int) ∧ (1 : Int) ≤ ((2 : Nat) : Int) ∧ 1 ≤ (2 : Int) ∧
     (2 : Int) ≤ ((3 : Nat) : Int) ∧ 0 < (1 : Int) ∧
     (1 : Int) - 1 + 1 ≤ ((2 : Nat) : Int) ∧ (2 : Int) - 1 + 1 ≤ ((3 : Nat) : Int) ∧
     WF (2 * 3) wbuf) ∧
    ((ClearRegion_action 2 3 wbuf 1 2 1 1).1 = true ∧
     (ClearRegion_action 2 3 wbuf 1 2 1 1).2.1 = [] ∧
     ∀ q ∈ rectAddrs ((3 : Nat) : Int) 1 2 1 1,
       (skipCell (2 * 3) wbuf q = true →
         (ClearRegion_action 2 3 wbuf 1 2 1 1).2.2 q = wbuf q) ∧
       (skipCell (2 * 3) wbuf q = false →
         (((wbuf q).db = .none ∨ (wbuf q).db = .sb) →
           (ClearRegion_action 2 3 wbuf 1 2 1 1).2.2 q = clearedCell (wbuf q)) ∧
         ((wbuf q).db = .left →
           (ClearRegion_action 2 3 wbuf 1 2 1 1).2.2 q = clearedCell (wbuf q) ∧
           (ClearRegion_action 2 3 wbuf 1 2 1 1).2.2 (INC_BA (2 * 3) q) =
             clearedCell (wbuf (INC_BA (2 * 3) q))) ∧
         ((wbuf q).db = .right →
           (ClearRegion_action 2 3 wbuf 1 2 1 1).2.2 q = clearedCell (wbuf q) ∧
           (ClearRegion_action 2 3 wbuf 1 2 1 1).2.2 (DEC_BA (2 * 3) q) =
             clearedCell (wbuf (DEC_BA (2 * 3) q))))) :=
  ⟨⟨by decide, by decide, by decide, by decide, by decide, by decide, by decide,
    by unfold WF wbuf; decide⟩,
   ClearRegion_valid_clears 2 3 wbuf 1 2 1 1 (by decide) (by decide) (by decide)
     (by decide) (by decide) (by decide) (by decide) (by decide)
     (by unfold WF wbuf; decide)⟩

end X3270
